import Mathlib

/-!
Shallow embedding of the crawl–scrape–validate–persist pipeline of the
`scrape_blogger` repository (src/main.rs, src/scrapers.rs, src/helpers.rs),
together with theorems settling the frozen claims about it.

Conventions used throughout:
* Rust `String` is Lean `String`; character-level reasoning goes through
  `String.data : List Char`.
* Rust `usize` / `isize` parsing is modelled by executable functions
  (`parseUsize`, `parseIsize`) following Rust's `FromStr` grammar
  (optional sign, one or more ASCII digits, bounds check).
* `HashSet` values are modelled as lists with explicit dedup-on-insert;
  the properties proved are membership / `Nodup` facts, which are the
  set-semantics facts the claims talk about.
* The chrono date parse `re.captures(d) >>= NaiveDate::parse_from_str`
  used by the sort comparators is an external-library function; it is
  modelled as an abstract parameter `pd : String → Option Int` (an
  `Option` of a linearly ordered day number, `None` when the regex or the
  date parse fails).  The claims under test are about the ORDER induced
  by the parsed keys, not about chrono internals.
-/

/-- The Item record (struct `Post` of the modular pipeline:
`id, title, content, URL, date, images`).  `images` is a `HashSet<String>`
in src/scrapers.rs, modelled as a deduplicated list. -/
structure Post where
  id : Option String
  title : String
  content : String
  URL : String
  date : Option String
  images : List String
deriving DecidableEq, Repr

/-- Digits-to-number accumulator, as in Rust's integer `FromStr`. -/
def digitsToNat (cs : List Char) : Nat :=
  cs.foldl (fun acc c => acc * 10 + (c.toNat - 48)) 0

/-- Rust `str::parse::<usize>()`: optional leading `+`, then one or more
ASCII digits, value must fit in 64 bits. -/
def parseUsize (s : String) : Option Nat :=
  let cs := s.data
  let ds := match cs with
    | '+' :: rest => rest
    | _ => cs
  if ds ≠ [] ∧ ds.all Char.isDigit then
    let v := digitsToNat ds
    if v < 2 ^ 64 then some v else none
  else none

/-- Rust `str::parse::<isize>()`: optional leading `+`/`-`, then one or
more ASCII digits, value must fit in signed 64 bits. -/
def parseIsize (s : String) : Option Int :=
  let cs := s.data
  let signNeg : Bool := match cs with
    | '-' :: _ => true
    | _ => false
  let ds := match cs with
    | '+' :: rest => rest
    | '-' :: rest => rest
    | _ => cs
  if ds ≠ [] ∧ ds.all Char.isDigit then
    let v := digitsToNat ds
    if signNeg then
      if v ≤ 2 ^ 63 then some (-(v : Int)) else none
    else
      if v < 2 ^ 63 then some (v : Int) else none
  else none

/-- Rust's derived `Ord::cmp` on `isize` (here `Int`). -/
def compareInt (x y : Int) : Ordering :=
  if x < y then .lt else if x = y then .eq else .gt

/-- Rust's derived `Ord::cmp` on `Option<T>`: `None` is least. -/
def compareOpt (a b : Option Int) : Ordering :=
  match a, b with
  | none, none => .eq
  | none, some _ => .lt
  | some _, none => .gt
  | some x, some y => compareInt x y

/-- Relation `a ≤ b` in the total order Rust's comparator induces on
`Option<...>` keys (`None` least). -/
def optLE (a b : Option Int) : Prop := compareOpt a b ≠ .gt

instance (a b : Option Int) : Decidable (optLE a b) := by
  unfold optLE; infer_instance

/-- The sort key of `sort_backup` / `sort_backup_asc` in src/helpers.rs:
`post.date.as_ref().and_then(|d| re.captures(d) …)`, with the
regex-plus-chrono parse abstracted as `pd`. -/
def dateKey (pd : String → Option Int) (p : Post) : Option Int :=
  p.date.bind pd

/-- The sort key of the pre-persistence sort in src/main.rs lines
116–121: `a.id.as_ref().and_then(|id| id.parse::<isize>().ok())`. -/
def idKey (p : Post) : Option Int :=
  p.id.bind parseIsize

/-- Function `sort_backup` (src/helpers.rs lines 50–68): stable sort with
comparator `b_date.cmp(&a_date)` — descending by parsed date (`a`
precedes `b` when the comparator is not `Greater`, i.e. when
`b_date ≤ a_date`). -/
def sort_backup (pd : String → Option Int) (backup : List Post) : List Post :=
  List.insertionSort
    (fun a b => optLE (dateKey pd b) (dateKey pd a)) backup

/-- Function `sort_backup_asc` (src/helpers.rs lines 70–88): stable sort with
comparator `a_date.cmp(&b_date)` — ascending by parsed date. -/
def sort_backup_asc (pd : String → Option Int) (backup : List Post) : List Post :=
  List.insertionSort
    (fun a b => optLE (dateKey pd a) (dateKey pd b)) backup

/-- The pre-persistence id sort of src/main.rs lines 116–121:
comparator `a_id.cmp(&b_id).reverse()` — descending by parsed id,
`None` (missing / unparseable) last. -/
def sort_by_id (backup : List Post) : List Post :=
  List.insertionSort
    (fun a b => (compareOpt (idKey a) (idKey b)).swap ≠ .gt) backup

/-- Modelled from the spec: the crate main of the modular pipeline (the
caller of `search_and_scrape` and `helpers::sort_backup`) is not under
src/; per spec §4.5 it sorts "by parsed numeric `id` descending … for
the full-archive mode, or by parsed `published` date descending for the
recent-only mode" before persisting.  Both comparators are embedded from
the source (src/main.rs lines 116–121 and src/helpers.rs `sort_backup`);
only this mode dispatch is taken from the spec. -/
def final_sort (pd : String → Option Int) (recent_only : Bool)
    (backup : List Post) : List Post :=
  if recent_only then sort_backup pd backup else sort_by_id backup

/-- The ids successfully parsed by `find_missing_ids`
(src/helpers.rs lines 130–132):
`backup.iter().filter_map(|post| post.id.as_ref()?.parse::<usize>().ok())`. -/
def parsed_ids (backup : List Post) : List Nat :=
  backup.filterMap (fun p => p.id.bind parseUsize)

/-- The missing-id list of `find_missing_ids` (src/helpers.rs lines
134–141): with `n` the number of parsed ids, the difference of the sets
`{0,…,n}` and the parsed ids, sorted ascending.  The source computes
`HashSet` difference and then sorts; filtering `List.range (n+1)` (which
is ascending and duplicate-free) produces exactly that sorted list. -/
def find_missing_ids (backup : List Post) : List Nat :=
  let ids := parsed_ids backup
  (List.range (ids.length + 1)).filter (fun x => ¬ x ∈ ids)

/-- Selection `backup.iter().filter(|post| post.id.is_none())` of
`find_missing_ids` (src/helpers.rs line 139). -/
def posts_without_ids (backup : List Post) : List Post :=
  backup.filter (fun p => p.id.isNone)

/-- The `[MISSING]` report pairs of `find_missing_ids` (src/helpers.rs
line 155): `missing_ids.iter().zip(posts_without_ids.iter())` after
sorting the id-less posts ascending by date. -/
def missing_id_pairs (pd : String → Option Int) (backup : List Post) :
    List (Nat × Post) :=
  (find_missing_ids backup).zip (sort_backup_asc pd (posts_without_ids backup))

/-- Constant `MAX_RETRIES` (src/scrapers.rs line 17). -/
def MAX_RETRIES : Nat := 4

/-- The retry loop of `fetch_and_process_with_retries` (src/scrapers.rs
lines 230–259).  `fetch i` is the outcome of the `i`-th (1-indexed) call
to `fetch_and_process_post`; the result is the returned value together
with the number of attempts made and the list of `[WARN]` records
written (identified by the attempt number printed in each record). -/
def retryLoop (fetch : Nat → Except ε α) (attempts : Nat) (warns : List Nat) :
    Except ε α × Nat × List Nat :=
  let attempts' := attempts + 1
  match fetch attempts' with
  | .ok p => (.ok p, attempts', warns)
  | .error e =>
    if attempts' ≥ MAX_RETRIES then (.error e, attempts', warns)
    else retryLoop fetch attempts' (warns ++ [attempts'])
termination_by MAX_RETRIES - attempts
decreasing_by simp only [MAX_RETRIES] at *; omega

/-- Function `fetch_and_process_with_retries` (src/scrapers.rs lines 230–259):
`attempts` starts at 0, the warn log starts empty. -/
def fetch_and_process_with_retries (fetch : Nat → Except ε α) :
    Except ε α × Nat × List Nat :=
  retryLoop fetch 0 []

/-- A fetch/extract stub that fails on exactly the first `k` attempts
(with error `errs i` on attempt `i`) and succeeds from attempt `k+1`
on, returning `item`. -/
def failStub (k : Nat) (errs : Nat → ε) (item : α) : Nat → Except ε α :=
  fun i => if i ≤ k then .error (errs i) else .ok item

/-- One pagination page, as seen through the external Extractor: the
item addresses `extract_post_links` finds on it, and the optional
`find_older_posts_link` target. -/
structure Page where
  links : List String
  next : Option String
deriving DecidableEq, Repr

/-- The Fetcher as a finite site: `fetch_html` succeeds on exactly the
addresses the site map carries. -/
def fetchPage (site : List (String × Page)) (url : String) : Option Page :=
  (site.find? (fun kv => kv.1 == url)).map (·.2)

/-- Result of link discovery: either a fatal fetch failure (propagated
by `?` in src/scrapers.rs line 188), or the accumulated `all_links`
together with the final `visited_urls`. -/
inductive DiscResult where
  | fail (url : String)
  | found (all_links : List String) (visited_urls : List String)
deriving DecidableEq, Repr

/-- The pagination loop of `scrape_all_post_links` (src/scrapers.rs
lines 187–220), with explicit fuel (`none` = fuel ran out; the
termination theorem shows the fuel used by `scrape_all_post_links`
always suffices).  Per iteration: fetch `current` (failure is fatal),
add the page's links that are neither archived nor already found, then
follow the older-posts link unless it is absent or already visited. -/
def walkFuel (site : List (String × Page)) (archived : List String) :
    Nat → String → List String → List String → Option DiscResult
  | 0, _, _, _ => none
  | fuel + 1, current, visited, found =>
    match fetchPage site current with
    | none => some (.fail current)
    | some page =>
      let found' :=
        found ++ page.links.filter (fun l => ¬ l ∈ archived ∧ ¬ l ∈ found)
      match page.next with
      | none => some (.found found' visited)
      | some next_url =>
        if next_url ∈ visited then some (.found found' visited)
        else walkFuel site archived fuel next_url (visited ++ [next_url]) found'

/-- Function `scrape_all_post_links` (src/scrapers.rs lines 158–228):
`visited_urls` starts as `{base_url}`, `all_links` starts empty.
`site.length + 2` fuel is enough (proved below). -/
def scrape_all_post_links (site : List (String × Page))
    (archived : List String) (base_url : String) : Option DiscResult :=
  walkFuel site archived (site.length + 2) base_url [base_url] []

/-- The shared state mutated by the worker closures of
`search_and_scrape` (src/scrapers.rs lines 97–121): the aggregate
`backup`, the `error_written` flag, and the `[ERROR]` records written to
the log (url, error). -/
structure SchedState where
  backup : List Post
  error_written : Bool
  log : List (String × String)
deriving DecidableEq, Repr

/-- The per-link worker body (src/scrapers.rs lines 101–117): on
success append the post to the aggregate under the lock; on terminal
failure set the shared flag and write one `[ERROR]` record. -/
def scrape_worker_step (outcome : String → Except String Post)
    (st : SchedState) (link : String) : SchedState :=
  match outcome link with
  | .ok post => { st with backup := st.backup ++ [post] }
  | .error e => { st with error_written := true, log := st.log ++ [(link, e)] }

/-- The fan-out phase of `search_and_scrape`: the worker pool drains the
whole link set; since every aggregate mutation happens under one lock,
any concurrent execution is equivalent to processing the links in some
sequential order, which is what the `links` list fixes. -/
def scheduler_run (outcome : String → Except String Post)
    (st : SchedState) (links : List String) : SchedState :=
  links.foldl (scrape_worker_step outcome) st

/-- Boolean contiguous-substring test on character lists (Rust
`str::contains` with a literal pattern). -/
def isInfixB (sub : List Char) : List Char → Bool
  | [] => sub.isEmpty
  | c :: t => sub.isPrefixOf (c :: t) || isInfixB sub t

/-- Rust `src.contains(pat)` for the two image filters. -/
def containsSub (s pat : String) : Bool := isInfixB pat.data s.data

/-- The image filter of `fetch_and_process_post` (src/scrapers.rs line
302): keep a `src` iff it contains neither `".gif"` nor
`"blogger_logo_round"`. -/
def keep_src (src : String) : Bool :=
  !(containsSub src ".gif") && !(containsSub src "blogger_logo_round")

/-- The protocol-relative fix-up (src/scrapers.rs lines 303–307):
prepend `"http:"` when the source starts with `"//"`. -/
def safe_src (src : String) : String :=
  if "//".data.isPrefixOf src.data then "http:" ++ src else src

/-- One iteration of the image-collection loop (src/scrapers.rs lines
300–311): filter, fix up, and `HashSet::insert` (dedup-on-insert). -/
def images_insert (images : List String) (src : String) : List String :=
  if keep_src src then
    if safe_src src ∈ images then images else images ++ [safe_src src]
  else images

/-- The image-collection loop of `fetch_and_process_post`
(src/scrapers.rs lines 296–312): `images` is a `HashSet`, modelled as a
list with dedup-on-insert; `srcs` are the `img src` attributes found
under `.post-outer`, in document order. -/
def process_images (srcs : List String) : List String :=
  srcs.foldl images_insert []

/-- State of the destination file and the advisory lock during
`write_to_file` (src/helpers.rs lines 90–99) under two concurrent
invocations: the file content, the lock holder, and each writer's
program counter. -/
structure FsState where
  content : String
  holder : Option Bool
  pc1 : Nat
  pc2 : Nat
deriving DecidableEq, Repr

/-- One atomic step of writer `who` running `write_to_file`.  Program
counters follow the source order of src/helpers.rs lines 92–96:
pc 0 → `File::create` (truncates the destination; the OS does not
consult the advisory lock), pc 1 → `lock_exclusive` (blocks while the
other writer holds the lock), pc 2 → `fs::write` of the complete
serialized content in one shot, pc 3 → `unlock`, pc 4 → returned `Ok`. -/
def writer_step (json1 json2 : String) (st : FsState) (who : Bool) : FsState :=
  let pc := if who then st.pc2 else st.pc1
  let json := if who then json2 else json1
  let setPc : FsState → Nat → FsState := fun st' n =>
    if who then { st' with pc2 := n } else { st' with pc1 := n }
  match pc with
  | 0 => setPc { st with content := "" } 1
  | 1 =>
    match st.holder with
    | none => setPc { st with holder := some who } 2
    | some _ => st
  | 2 => setPc { st with content := json } 3
  | 3 => setPc { st with holder := none } 4
  | _ => st

/-- Run two concurrent `write_to_file` invocations (serializations
`json1`, `json2`) under the interleaving `sched` (`false` = writer 1
steps, `true` = writer 2 steps), starting from a destination that holds
a previous complete archive `init`. -/
def write_to_file_race (init json1 json2 : String) (sched : List Bool) : FsState :=
  sched.foldl (writer_step json1 json2)
    { content := init, holder := none, pc1 := 0, pc2 := 0 }

lemma compareInt_ne_gt {x y : Int} : compareInt x y ≠ .gt ↔ x ≤ y := by
  unfold compareInt
  split_ifs with h1 h2 <;> simp_all <;> omega

lemma compareOpt_ne_gt_total (a b : Option Int) :
    compareOpt a b ≠ .gt ∨ compareOpt b a ≠ .gt := by
  cases a <;> cases b <;> simp [compareOpt, compareInt_ne_gt] <;> omega

lemma compareOpt_ne_gt_trans {a b c : Option Int}
    (hab : compareOpt a b ≠ .gt) (hbc : compareOpt b c ≠ .gt) :
    compareOpt a c ≠ .gt := by
  rcases a with _ | x
  · cases c <;> simp [compareOpt]
  · rcases b with _ | y
    · exact absurd rfl hab
    · rcases c with _ | z
      · exact absurd rfl hbc
      · have hab' : compareInt x y ≠ .gt := hab
        have hbc' : compareInt y z ≠ .gt := hbc
        show compareInt x z ≠ .gt
        rw [compareInt_ne_gt] at hab' hbc' ⊢
        omega

lemma compareInt_swap (x y : Int) : compareInt y x = (compareInt x y).swap := by
  unfold compareInt
  split_ifs <;> first | rfl | (exfalso; omega)

lemma compareOpt_swap (a b : Option Int) :
    compareOpt b a = (compareOpt a b).swap := by
  rcases a with _ | x <;> rcases b with _ | y
  · rfl
  · rfl
  · rfl
  · exact compareInt_swap x y

lemma optLE_none_left (b : Option Int) : optLE none b := by
  cases b <;> simp [optLE, compareOpt]

/-- A backup entry carrying only an id, for concrete gap-detection runs. -/
def mkIdPost (i : String) : Post :=
  { id := some i, title := "t", content := "c", URL := "u", date := none,
    images := [] }

/-- The archive with parsed ids `{0, 1, 3, 4}` from the claim. -/
def gapBackup : List Post :=
  [mkIdPost "0", mkIdPost "1", mkIdPost "3", mkIdPost "4"]

/-- C2: gap detection parses the present ids as non-negative integers
and, with `n` the count of successfully parsed ids, reports exactly the
ascending enumeration of `(0..=n) \ parsed`; on parsed ids `{0,1,3,4}`
it reports exactly `[2]`. -/
theorem find_missing_ids_gap_detection :
    (∀ backup : List Post,
      (find_missing_ids backup).Pairwise (· < ·) ∧
      ∀ x : Nat, x ∈ find_missing_ids backup ↔
        (x ≤ (parsed_ids backup).length ∧ ¬ x ∈ parsed_ids backup)) ∧
    find_missing_ids gapBackup = [2] := by
  constructor
  · intro backup
    constructor
    · exact List.Pairwise.filter _ (List.pairwise_lt_range _)
    · intro x
      simp [find_missing_ids, List.mem_filter, List.mem_range, Nat.lt_succ_iff]
  · decide

/-- Witness for C2 at the concrete archive of the claim. -/
theorem find_missing_ids_gap_detection_witness :
    2 ∈ find_missing_ids gapBackup ↔
      (2 ≤ (parsed_ids gapBackup).length ∧ ¬ 2 ∈ parsed_ids gapBackup) :=
  (find_missing_ids_gap_detection.1 gapBackup).2 2

/-- C5: the failing interleaving of two concurrent `write_to_file`
invocations.  Schedule: writer 1 runs `File::create`, `lock_exclusive`
and `fs::write` to completion of its content; writer 2 then runs its
`File::create`, which truncates the destination *before* it can acquire
the advisory lock; writer 1 unlocks and returns `Ok`.  At that point no
one holds the lock, writer 1 has completed successfully, and the
destination holds neither a complete serialization nor the previous
archive — it is empty. -/
theorem write_to_file_truncation_race :
    write_to_file_race "OLD" "JSON-A" "JSON-B" [false, false, false, true, false] =
      { content := "", holder := none, pc1 := 4, pc2 := 1 } ∧
    ("" : String) ≠ "JSON-A" ∧ ("" : String) ≠ "JSON-B" ∧
    ("" : String) ≠ "OLD" := by
  decide

lemma swap_ne_gt_iff (a b : Option Int) :
    (compareOpt a b).swap ≠ .gt ↔ compareOpt b a ≠ .gt := by
  rw [compareOpt_swap a b]

lemma sorted_sort_backup (pd : String → Option Int) (l : List Post) :
    List.Sorted (fun a b => optLE (dateKey pd b) (dateKey pd a))
      (sort_backup pd l) := by
  haveI : IsTotal Post (fun a b => optLE (dateKey pd b) (dateKey pd a)) :=
    ⟨fun a b => compareOpt_ne_gt_total (dateKey pd b) (dateKey pd a)⟩
  haveI : IsTrans Post (fun a b => optLE (dateKey pd b) (dateKey pd a)) :=
    ⟨fun _ _ _ hab hbc => compareOpt_ne_gt_trans hbc hab⟩
  exact List.sorted_insertionSort _ l

lemma sorted_sort_backup_asc (pd : String → Option Int) (l : List Post) :
    List.Sorted (fun a b => optLE (dateKey pd a) (dateKey pd b))
      (sort_backup_asc pd l) := by
  haveI : IsTotal Post (fun a b => optLE (dateKey pd a) (dateKey pd b)) :=
    ⟨fun a b => compareOpt_ne_gt_total (dateKey pd a) (dateKey pd b)⟩
  haveI : IsTrans Post (fun a b => optLE (dateKey pd a) (dateKey pd b)) :=
    ⟨fun _ _ _ hab hbc => compareOpt_ne_gt_trans hab hbc⟩
  exact List.sorted_insertionSort _ l

lemma sorted_sort_by_id (l : List Post) :
    List.Sorted (fun a b => optLE (idKey b) (idKey a)) (sort_by_id l) := by
  haveI : IsTotal Post (fun a b => (compareOpt (idKey a) (idKey b)).swap ≠ .gt) :=
    ⟨fun a b => by
      rw [swap_ne_gt_iff, swap_ne_gt_iff]
      exact compareOpt_ne_gt_total (idKey b) (idKey a)⟩
  haveI : IsTrans Post (fun a b => (compareOpt (idKey a) (idKey b)).swap ≠ .gt) :=
    ⟨fun a b c hab hbc => by
      rw [swap_ne_gt_iff] at hab hbc ⊢
      exact compareOpt_ne_gt_trans hbc hab⟩
  have hs := List.sorted_insertionSort
    (fun a b => (compareOpt (idKey a) (idKey b)).swap ≠ .gt) l
  exact hs.imp (fun hab => (swap_ne_gt_iff _ _).mp hab)

/-- C6: before persistence, the final item sequence is sorted by the
mode-dependent key: recent-only mode by parsed date descending
(comparator of `helpers::sort_backup`), full-archive mode by parsed id
descending (comparator of the sort in src/main.rs), where a missing or
unparseable id is a least key, hence placed last in the descending
order. -/
theorem final_sort_mode_dependent :
    ∀ (pd : String → Option Int) (backup : List Post),
      List.Perm (final_sort pd true backup) backup ∧
      List.Sorted (fun a b => optLE (dateKey pd b) (dateKey pd a))
        (final_sort pd true backup) ∧
      List.Perm (final_sort pd false backup) backup ∧
      List.Sorted (fun a b => optLE (idKey b) (idKey a))
        (final_sort pd false backup) ∧
      (∀ a b : Post, idKey b = none → optLE (idKey b) (idKey a)) := by
  intro pd backup
  refine ⟨?_, ?_, ?_, ?_, ?_⟩
  · simpa [final_sort, sort_backup] using
      List.perm_insertionSort (fun a b => optLE (dateKey pd b) (dateKey pd a)) backup
  · simpa [final_sort] using sorted_sort_backup pd backup
  · simpa [final_sort, sort_by_id] using
      List.perm_insertionSort (fun a b => (compareOpt (idKey a) (idKey b)).swap ≠ .gt) backup
  · simpa [final_sort] using sorted_sort_by_id backup
  · intro a b hb
    rw [hb]
    exact optLE_none_left (idKey a)

/-- A post with no id suffix and no date, used in concrete instances. -/
def pNoId : Post :=
  { id := none, title := "n", content := "c", URL := "u0", date := none,
    images := [] }

/-- A post whose title suffix parsed to id 2. -/
def pId2 : Post :=
  { id := some "2", title := "x (2)", content := "c", URL := "u2",
    date := none, images := [] }

/-- Witness for C6 at a concrete mode, archive and missing id. -/
theorem final_sort_mode_dependent_witness :
    optLE (idKey pNoId) (idKey pId2) ∧
    List.Perm (final_sort (fun _ => none) false [pNoId, pId2]) [pNoId, pId2] :=
  ⟨(final_sort_mode_dependent (fun _ => none) []).2.2.2.2 pId2 pNoId rfl,
   (final_sort_mode_dependent (fun _ => none) [pNoId, pId2]).2.2.1⟩

/-- A date parse consistent with the chrono chain on the two strings
involved: "2 January 2020" parses (day number 737426), everything else
fails. -/
def pdEx : String → Option Int :=
  fun s => if s = "2 January 2020" then some 737426 else none

/-- An id-less post with a parseable date. -/
def pDated : Post :=
  { id := none, title := "dated", content := "c", URL := "uA",
    date := some "2 January 2020", images := [] }

/-- An id-less post with no date at all. -/
def pDateless : Post :=
  { id := none, title := "dateless", content := "c", URL := "uB",
    date := none, images := [] }

/-- C7 counterexample: in the ascending date sort used by the
missing-id reporting pass, an item with a missing date sorts FIRST
(Rust's `Option` orders `None` least), not last as the claim states. -/
theorem missing_id_pairing_counterexample :
    sort_backup_asc pdEx [pDated, pDateless] = [pDateless, pDated] ∧
    pDateless.date = none ∧
    dateKey pdEx pDated = some 737426 ∧
    sort_backup_asc pdEx [pDated, pDateless] ≠ [pDated, pDateless] := by
  decide

/-- C7 (amended): the id-less items are sorted ascending by parsed
date, with items whose date is missing or unparseable sorting as LEAST
(first in ascending order), and each missing id (ascending) is paired
positionally with the item at the same position of that sorted list. -/
theorem missing_id_pairing_amended :
    ∀ (pd : String → Option Int) (backup : List Post),
      List.Perm (sort_backup_asc pd (posts_without_ids backup))
        (posts_without_ids backup) ∧
      List.Sorted (fun a b => optLE (dateKey pd a) (dateKey pd b))
        (sort_backup_asc pd (posts_without_ids backup)) ∧
      (∀ a b : Post, dateKey pd a = none → optLE (dateKey pd a) (dateKey pd b)) ∧
      missing_id_pairs pd backup =
        (find_missing_ids backup).zip
          (sort_backup_asc pd (posts_without_ids backup)) := by
  intro pd backup
  refine ⟨?_, ?_, ?_, rfl⟩
  · exact List.perm_insertionSort _ _
  · exact sorted_sort_backup_asc pd (posts_without_ids backup)
  · intro a b ha
    rw [ha]
    exact optLE_none_left (dateKey pd b)

/-- Witness for C7 (amended) at a concrete parse and archive. -/
theorem missing_id_pairing_amended_witness :
    optLE (dateKey pdEx pDateless) (dateKey pdEx pDated) ∧
    List.Perm (sort_backup_asc pdEx (posts_without_ids [pDated, pDateless]))
      (posts_without_ids [pDated, pDateless]) :=
  ⟨(missing_id_pairing_amended pdEx []).2.2.1 pDateless pDated rfl,
   (missing_id_pairing_amended pdEx [pDated, pDateless]).1⟩

lemma retry_stub_run {ε α : Type} (k : Nat) (errs : Nat → ε) (item : α) :
    fetch_and_process_with_retries (failStub k errs item) =
      ((if k < MAX_RETRIES then Except.ok item else Except.error (errs MAX_RETRIES)),
       min (k + 1) MAX_RETRIES,
       (List.range (min k (MAX_RETRIES - 1))).map (· + 1)) := by
  rcases Nat.lt_or_ge k 4 with hk | hk
  · interval_cases k <;>
      simp [fetch_and_process_with_retries, retryLoop, failStub, MAX_RETRIES,
        List.range_succ]
  · obtain ⟨m, rfl⟩ : ∃ m, k = m + 4 := ⟨k - 4, by omega⟩
    have h1 : (1 : Nat) ≤ m + 4 := by omega
    have h2 : (2 : Nat) ≤ m + 4 := by omega
    have h3 : (3 : Nat) ≤ m + 4 := by omega
    have h4 : (4 : Nat) ≤ m + 4 := by omega
    have h5 : ¬ (m + 4 < 4) := by omega
    have h6 : min (m + 4 + 1) 4 = 4 := by omega
    have h7 : min (m + 4) 3 = 3 := by omega
    simp [fetch_and_process_with_retries, retryLoop, failStub, MAX_RETRIES,
      h1, h2, h3, h4, h5, h6, h7, List.range_succ]

/-- C1 counterexample: a stub failing exactly `k = 4` times makes the
retry loop write 3 `[WARN]` records, not `min(k, MAX_RETRIES) = 4` as
the claim states (no warning precedes returning the terminal error). -/
theorem retry_warn_count_counterexample :
    ((fetch_and_process_with_retries (failStub 4 (fun i => i) (0 : Nat))).2.2).length = 3 ∧
    min 4 MAX_RETRIES = 4 ∧ (3 : Nat) ≠ 4 := by
  refine ⟨?_, by decide, by decide⟩
  rw [retry_stub_run]
  decide

/-- C1 (amended): against a stub failing exactly `k` times then
succeeding, `fetch_and_process_with_retries` returns the item iff
`k < MAX_RETRIES`, otherwise the last error (the one from attempt
`MAX_RETRIES`) after exactly `MAX_RETRIES` attempts; the number of
`[WARN]` retry records written equals `min(k, MAX_RETRIES - 1)` (the
records are those of attempts `1..=min(k, MAX_RETRIES - 1)`). -/
theorem retry_ceiling_amended :
    ∀ (ε α : Type) (k : Nat) (errs : Nat → ε) (item : α),
      fetch_and_process_with_retries (failStub k errs item) =
        ((if k < MAX_RETRIES then Except.ok item
          else Except.error (errs MAX_RETRIES)),
         min (k + 1) MAX_RETRIES,
         (List.range (min k (MAX_RETRIES - 1))).map (· + 1)) ∧
      ((fetch_and_process_with_retries (failStub k errs item)).2.2).length =
        min k (MAX_RETRIES - 1) := by
  intro ε α k errs item
  refine ⟨retry_stub_run k errs item, ?_⟩
  rw [retry_stub_run]
  simp

/-- The aggregate as created at the start of a run (src/scrapers.rs
line 27: `Arc::new(Mutex::new(Vec::new()))`, flag `false`, empty log). -/
def initial_sched_state : SchedState :=
  { backup := [], error_written := false, log := [] }

lemma scrape_worker_step_backup
    (outcome : String → Except String Post) (st : SchedState) (link : String) :
    st.backup <+: (scrape_worker_step outcome st link).backup := by
  unfold scrape_worker_step
  cases outcome link with
  | ok post => exact List.prefix_append st.backup [post]
  | error e => exact List.prefix_refl _

lemma scanl_head {α β : Type} (f : β → α → β) (b : β) (l : List α) :
    (List.scanl f b l).head? = some b := by
  cases l <;> simp [List.scanl]

lemma scanl_getLast {α β : Type} (f : β → α → β) :
    ∀ (l : List α) (b : β),
      (List.scanl f b l).getLast? = some (List.foldl f b l) := by
  intro l
  induction l with
  | nil => intro b; simp [List.scanl]
  | cons a t ih =>
    intro b
    rw [List.scanl_cons, List.foldl_cons]
    have hne : List.scanl f (f b a) t ≠ [] := by cases t <;> simp [List.scanl]
    cases hxs : List.scanl f (f b a) t with
    | nil => exact absurd hxs hne
    | cons x xs =>
      rw [List.singleton_append, List.getLast?_cons_cons, ← hxs]
      exact ih (f b a)

lemma chain_scanl (outcome : String → Except String Post) :
    ∀ (links : List String) (st : SchedState),
      List.Chain' (fun s t => s.backup <+: t.backup)
        (List.scanl (scrape_worker_step outcome) st links) := by
  intro links
  induction links with
  | nil => intro st; simp [List.scanl]
  | cons a t ih =>
    intro st
    rw [List.scanl_cons, List.singleton_append]
    refine List.chain'_cons'.mpr ⟨?_, ih (scrape_worker_step outcome st a)⟩
    intro y hy
    rw [scanl_head, Option.mem_def, Option.some.injEq] at hy
    rw [← hy]
    exact scrape_worker_step_backup outcome st a

/-- C8: the aggregate is created empty; during fan-out every state of
the aggregate is a prefix of the next one (workers only ever append);
and the value handed on once the pool has drained is exactly the last
fan-out state (nothing mutates it afterwards). -/
theorem aggregate_append_only :
    ∀ (outcome : String → Except String Post) (st : SchedState)
      (links : List String),
      initial_sched_state.backup = [] ∧
      (List.scanl (scrape_worker_step outcome) st links).head? = some st ∧
      List.Chain' (fun s t => s.backup <+: t.backup)
        (List.scanl (scrape_worker_step outcome) st links) ∧
      (List.scanl (scrape_worker_step outcome) st links).getLast? =
        some (scheduler_run outcome st links) := by
  intro outcome st links
  exact ⟨rfl, scanl_head _ st links, chain_scanl outcome links st,
    scanl_getLast _ links st⟩

/-- C9: the pool fully drains: every discovered address contributes —
the final aggregate is the initial one plus the successful items of ALL
links in order, the shared flag ends up set iff it was set or some link
failed terminally, and the log gains exactly one `[ERROR]` record per
failed link. -/
theorem failures_isolated :
    ∀ (outcome : String → Except String Post) (st : SchedState)
      (links : List String),
      (scheduler_run outcome st links).backup =
        st.backup ++ links.filterMap (fun l => (outcome l).toOption) ∧
      (scheduler_run outcome st links).error_written =
        (st.error_written || links.any (fun l => !(outcome l).isOk)) ∧
      (scheduler_run outcome st links).log =
        st.log ++ links.filterMap (fun l =>
          match outcome l with
          | .ok _ => none
          | .error e => some (l, e)) := by
  intro outcome st links
  induction links generalizing st with
  | nil => simp [scheduler_run]
  | cons a t ih =>
    rcases ih (scrape_worker_step outcome st a) with ⟨h1, h2, h3⟩
    have hrun : scheduler_run outcome st (a :: t) =
        scheduler_run outcome (scrape_worker_step outcome st a) t := rfl
    cases h : outcome a with
    | ok post =>
      have hb : (scrape_worker_step outcome st a).backup =
          st.backup ++ [post] := by simp [scrape_worker_step, h]
      have hew : (scrape_worker_step outcome st a).error_written =
          st.error_written := by simp [scrape_worker_step, h]
      have hl : (scrape_worker_step outcome st a).log = st.log := by
        simp [scrape_worker_step, h]
      refine ⟨?_, ?_, ?_⟩
      · rw [hrun, h1, hb, List.filterMap_cons]
        simp [h, Except.toOption]
      · rw [hrun, h2, hew]
        simp [h, Except.isOk, Except.toBool]
      · rw [hrun, h3, hl, List.filterMap_cons]
        simp [h]
    | error e =>
      have hb : (scrape_worker_step outcome st a).backup = st.backup := by
        simp [scrape_worker_step, h]
      have hew : (scrape_worker_step outcome st a).error_written = true := by
        simp [scrape_worker_step, h]
      have hl : (scrape_worker_step outcome st a).log =
          st.log ++ [(a, e)] := by simp [scrape_worker_step, h]
      refine ⟨?_, ?_, ?_⟩
      · rw [hrun, h1, hb, List.filterMap_cons]
        simp [h, Except.toOption]
      · rw [hrun, h2, hew]
        simp [h, Except.isOk, Except.toBool]
      · rw [hrun, h3, hl, List.filterMap_cons]
        simp [h]

/-- The addresses the site map can serve. -/
def siteKeys (site : List (String × Page)) : List String := site.map (·.1)

/-- Addresses of the site not yet visited — the measure that shrinks as
pagination walks. -/
def unvisited (site : List (String × Page)) (visited : List String) : Nat :=
  ((siteKeys site).filter (fun k => ¬ k ∈ visited)).length

lemma fetchPage_mem {site : List (String × Page)} {url : String} {page : Page}
    (h : fetchPage site url = some page) : url ∈ siteKeys site := by
  unfold fetchPage at h
  rcases hf : List.find? (fun kv => kv.1 == url) site with _ | kv
  · rw [hf] at h; cases h
  · have hp := List.find?_some hf
    have hmem := List.mem_of_find?_eq_some hf
    have hk : kv.1 = url := by simpa using hp
    exact hk ▸ List.mem_map_of_mem (·.1) hmem

lemma unvisited_insert_lt {site : List (String × Page)} {visited : List String}
    {next_url : String} (hk : next_url ∈ siteKeys site)
    (hv : ¬ next_url ∈ visited) :
    unvisited site (visited ++ [next_url]) < unvisited site visited := by
  unfold unvisited
  have hset : (siteKeys site).filter (fun k => ¬ k ∈ visited ++ [next_url]) =
      ((siteKeys site).filter (fun k => ¬ k ∈ visited)).filter
        (fun k => ¬ k = next_url) := by
    rw [List.filter_filter]
    apply List.filter_congr
    intro k _
    simp [List.mem_append, not_or]
    exact Bool.and_comm _ _
  rw [hset]
  apply List.length_filter_lt_length_iff_exists.mpr
  refine ⟨next_url, List.mem_filter.mpr ⟨hk, by simpa using hv⟩, by simp⟩

lemma walkFuel_total (site : List (String × Page)) (archived : List String) :
    ∀ (fuel : Nat) (current : String) (visited found : List String),
      unvisited site visited + 2 ≤ fuel →
      walkFuel site archived fuel current visited found ≠ none := by
  intro fuel
  induction fuel using Nat.strong_induction_on with
  | _ fuel ih =>
    intro current visited found hfuel
    obtain ⟨f, rfl⟩ : ∃ f, fuel = f + 1 := ⟨fuel - 1, by omega⟩
    simp only [walkFuel]
    cases hfp : fetchPage site current with
    | none => simp
    | some page =>
      cases hnext : page.next with
      | none => simp [hnext]
      | some next_url =>
        simp only [hnext]
        by_cases hv : next_url ∈ visited
        · simp [hv]
        · simp only [hv, if_false]
          by_cases hk : next_url ∈ siteKeys site
          · apply ih f (by omega)
            have := unvisited_insert_lt hk hv
            omega
          · obtain ⟨f', rfl⟩ : ∃ f', f = f' + 1 := ⟨f - 1, by omega⟩
            have hnone : fetchPage site next_url = none := by
              cases hfp2 : fetchPage site next_url with
              | none => rfl
              | some pg => exact absurd (fetchPage_mem hfp2) hk
            simp [walkFuel, hnone]

/-- The two-page site of the claim: page B's older-posts link points
back to page A. -/
def cycleSite : List (String × Page) :=
  [("A", { links := ["pA1"], next := some "B" }),
   ("B", { links := ["pB1"], next := some "A" })]

/-- C3: link discovery always terminates — `scrape_all_post_links`
never exhausts its fuel, on any finite site, any archive and any start
address; and on the stub site where page B's next link points back to
page A it stops after visiting exactly A and B, returning the links of
both. -/
theorem discovery_terminates :
    (∀ (site : List (String × Page)) (archived : List String)
       (base_url : String),
       (scrape_all_post_links site archived base_url).isSome = true) ∧
    scrape_all_post_links cycleSite [] "A" =
      some (.found ["pA1", "pB1"] ["A", "B"]) := by
  constructor
  · intro site archived base_url
    apply Option.isSome_iff_ne_none.mpr
    apply walkFuel_total
    have h1 : unvisited site [base_url] ≤ (siteKeys site).length :=
      List.length_filter_le _ _
    have h2 : (siteKeys site).length = site.length := by simp [siteKeys]
    omega
  · decide

lemma mem_found_acc {archived found : List String} {page : Page} {l : String}
    (h : l ∈ found ++
      page.links.filter (fun x => ¬ x ∈ archived ∧ ¬ x ∈ found)) :
    l ∈ found ∨ ¬ l ∈ archived := by
  rcases List.mem_append.mp h with hf | hfil
  · exact Or.inl hf
  · right
    have := (List.mem_filter.mp hfil).2
    simp at this
    exact this.1

lemma walk_avoids (site : List (String × Page)) (archived : List String) :
    ∀ (fuel : Nat) (current : String) (visited found res vis : List String),
      walkFuel site archived fuel current visited found =
        some (.found res vis) →
      ∀ l, l ∈ res → l ∈ found ∨ ¬ l ∈ archived := by
  intro fuel
  induction fuel with
  | zero =>
    intro current visited found res vis h
    simp [walkFuel] at h
  | succ f ih =>
    intro current visited found res vis h l hl
    simp only [walkFuel] at h
    cases hfp : fetchPage site current with
    | none => simp [hfp] at h
    | some page =>
      simp only [hfp] at h
      cases hnext : page.next with
      | none =>
        simp only [hnext, Option.some.injEq, DiscResult.found.injEq] at h
        exact mem_found_acc (by rw [h.1]; exact hl)
      | some next_url =>
        simp only [hnext] at h
        by_cases hv : next_url ∈ visited
        · rw [if_pos hv] at h
          simp only [Option.some.injEq, DiscResult.found.injEq] at h
          exact mem_found_acc (by rw [h.1]; exact hl)
        · rw [if_neg hv] at h
          rcases ih next_url (visited ++ [next_url]) _ res vis h l hl with
            hacc | hna
          · exact mem_found_acc hacc
          · exact Or.inr hna

lemma walk_mono (site : List (String × Page))
    {archived archived' : List String}
    (hsub : ∀ l, l ∈ archived → l ∈ archived') :
    ∀ (fuel : Nat) (current : String) (visited found found' : List String),
      (∀ l, l ∈ found' → l ∈ found) →
      ∀ res vis,
        walkFuel site archived fuel current visited found =
          some (.found res vis) →
        ∃ res', walkFuel site archived' fuel current visited found' =
            some (.found res' vis) ∧ ∀ l, l ∈ res' → l ∈ res := by
  intro fuel
  induction fuel with
  | zero =>
    intro current visited found found' hf res vis h
    simp [walkFuel] at h
  | succ f ih =>
    intro current visited found found' hf res vis h
    simp only [walkFuel] at h ⊢
    cases hfp : fetchPage site current with
    | none => simp [hfp] at h
    | some page =>
      simp only [hfp] at h ⊢
      have hacc : ∀ l, l ∈ found' ++ page.links.filter
            (fun x => ¬ x ∈ archived' ∧ ¬ x ∈ found') →
          l ∈ found ++ page.links.filter
            (fun x => ¬ x ∈ archived ∧ ¬ x ∈ found) := by
        intro l hl
        rcases List.mem_append.mp hl with h1 | h2
        · exact List.mem_append_left _ (hf l h1)
        · have hm := List.mem_filter.mp h2
          have hp := hm.2
          simp at hp
          by_cases hfd : l ∈ found
          · exact List.mem_append_left _ hfd
          · refine List.mem_append_right _ (List.mem_filter.mpr ⟨hm.1, ?_⟩)
            have hna : ¬ l ∈ archived := fun hx => hp.1 (hsub l hx)
            simp [hna, hfd]
      cases hnext : page.next with
      | none =>
        simp only [hnext, Option.some.injEq, DiscResult.found.injEq] at h ⊢
        obtain ⟨h1, h2⟩ := h
        subst h1
        subst h2
        exact ⟨_, ⟨rfl, rfl⟩, hacc⟩
      | some next_url =>
        simp only [hnext] at h ⊢
        by_cases hv : next_url ∈ visited
        · rw [if_pos hv] at h ⊢
          simp only [Option.some.injEq, DiscResult.found.injEq] at h ⊢
          obtain ⟨h1, h2⟩ := h
          subst h1
          subst h2
          exact ⟨_, ⟨rfl, rfl⟩, hacc⟩
        · rw [if_neg hv] at h ⊢
          exact ih next_url (visited ++ [next_url]) _ _ hacc res vis h

/-- C4: no already-archived address ever appears in the discovery set;
and archiving the first run's output makes a second run over the same
site return a subset of the first run's discovery set. -/
theorem discovery_excludes_archived :
    ∀ (site : List (String × Page)) (archived : List String)
      (base_url : String) (res vis : List String),
      scrape_all_post_links site archived base_url =
        some (.found res vis) →
      (∀ l, l ∈ res → ¬ l ∈ archived) ∧
      ∃ res', scrape_all_post_links site (archived ++ res) base_url =
          some (.found res' vis) ∧ ∀ l, l ∈ res' → l ∈ res := by
  intro site archived base_url res vis h
  constructor
  · intro l hl
    rcases walk_avoids site archived _ base_url [base_url] [] res vis h l hl
      with hf | hna
    · simp at hf
    · exact hna
  · exact walk_mono site (fun l hl => List.mem_append_left res hl) _
      base_url [base_url] [] [] (fun l hl => hl) res vis h

/-- A one-page site used to witness C4. -/
def singleSite : List (String × Page) :=
  [("S", { links := ["L1"], next := none })]

/-- Witness for C4: a concrete first run, then a second run with the
first run's output archived. -/
theorem discovery_excludes_archived_witness :
    (∀ l, l ∈ ["L1"] → ¬ l ∈ ([] : List String)) ∧
    ∃ res', scrape_all_post_links singleSite ([] ++ ["L1"]) "S" =
        some (.found res' ["S"]) ∧ ∀ l, l ∈ res' → l ∈ ["L1"] :=
  discovery_excludes_archived singleSite [] "S" ["L1"] ["S"] (by decide)

lemma isInfixB_iff (sub : List Char) :
    ∀ s : List Char, isInfixB sub s = true ↔ sub <:+: s := by
  intro s
  induction s with
  | nil =>
    simp [isInfixB, List.isEmpty_iff]
  | cons c t ih =>
    simp [isInfixB, List.isPrefixOf_iff_prefix, ih, List.infix_cons_iff]

lemma not_infix_of_containsSub_false {s pat : String}
    (h : containsSub s pat = false) : ¬ pat.data <:+: s.data := by
  intro hi
  rw [← isInfixB_iff] at hi
  rw [containsSub] at h
  rw [h] at hi
  cases hi

lemma infix_drop_prepend (c : Char) {sub pre s : List Char}
    (hh : sub.head? = some c) (hc : ¬ c ∈ pre)
    (h : sub <:+: pre ++ s) : sub <:+: s := by
  obtain ⟨u, v, huv⟩ := h
  rcases Nat.lt_or_ge u.length pre.length with hlen | hlen
  · exfalso
    have hleft : (u ++ (sub ++ v))[u.length]? = some c := by
      rw [List.getElem?_append_right (Nat.le_refl _)]
      simp only [Nat.sub_self]
      cases sub with
      | nil => cases hh
      | cons a t => simp_all
    have hassoc : u ++ (sub ++ v) = pre ++ s := by
      rw [← List.append_assoc]; exact huv
    rw [hassoc] at hleft
    simp only [List.getElem?_append, hlen, if_pos] at hleft
    have : c ∈ pre := by
      have := List.getElem?_eq_some.mp hleft
      obtain ⟨hlt, he⟩ := this
      exact he ▸ List.getElem_mem hlt
    exact hc this
  · have h1 : pre <+: (u ++ sub ++ v) := by
      rw [huv]; exact List.prefix_append pre s
    have h2 : u <+: (u ++ sub ++ v) := by
      rw [List.append_assoc]; exact List.prefix_append u (sub ++ v)
    have hupre : pre <+: u := List.prefix_of_prefix_length_le h1 h2 hlen
    obtain ⟨w, rfl⟩ := hupre
    refine ⟨w, v, ?_⟩
    have heq : pre ++ (w ++ sub ++ v) = pre ++ s := by
      calc pre ++ (w ++ sub ++ v) = (pre ++ w) ++ sub ++ v := by
            simp [List.append_assoc]
      _ = pre ++ s := huv
    exact List.append_cancel_left heq

lemma images_insert_mem (images : List String) (src s : String) :
    s ∈ images_insert images src ↔
      s ∈ images ∨ (keep_src src = true ∧ s = safe_src src) := by
  unfold images_insert
  by_cases hk : keep_src src = true
  · by_cases hm : safe_src src ∈ images
    · simp only [hk, if_true, hm, if_pos]
      constructor
      · exact fun h => Or.inl h
      · rintro (h | ⟨-, rfl⟩)
        · exact h
        · exact hm
    · simp [hk, hm, List.mem_append]
  · simp [hk]

lemma process_images_go_mem :
    ∀ (srcs acc : List String) (s : String),
      s ∈ srcs.foldl images_insert acc ↔
        s ∈ acc ∨ ∃ src, src ∈ srcs ∧ keep_src src = true ∧
          s = safe_src src := by
  intro srcs
  induction srcs with
  | nil => intro acc s; simp
  | cons a t ih =>
    intro acc s
    rw [List.foldl_cons, ih, images_insert_mem]
    constructor
    · rintro ((h | ⟨hk, rfl⟩) | ⟨src, hsrc, hk, rfl⟩)
      · exact Or.inl h
      · exact Or.inr ⟨a, List.mem_cons_self a t, hk, rfl⟩
      · exact Or.inr ⟨src, List.mem_cons_of_mem a hsrc, hk, rfl⟩
    · rintro (h | ⟨src, hsrc, hk, rfl⟩)
      · exact Or.inl (Or.inl h)
      · rcases List.mem_cons.mp hsrc with rfl | h2
        · exact Or.inl (Or.inr ⟨hk, rfl⟩)
        · exact Or.inr ⟨src, h2, hk, rfl⟩

lemma process_images_go_nodup :
    ∀ (srcs acc : List String), acc.Nodup →
      (srcs.foldl images_insert acc).Nodup := by
  intro srcs
  induction srcs with
  | nil => intro acc h; simpa
  | cons a t ih =>
    intro acc h
    rw [List.foldl_cons]
    apply ih
    unfold images_insert
    by_cases hk : keep_src a = true
    · by_cases hm : safe_src a ∈ acc
      · simp [hk, hm, h]
      · simp [hk, hm, List.nodup_append, h]
    · simp [hk, h]

lemma keep_src_spec {src : String} (h : keep_src src = true) :
    containsSub src ".gif" = false ∧
    containsSub src "blogger_logo_round" = false := by
  unfold keep_src at h
  simp only [Bool.and_eq_true, Bool.not_eq_true'] at h
  exact h

lemma safe_src_not_infix {src : String} (hk : keep_src src = true) :
    ¬ (".gif".data <:+: (safe_src src).data) ∧
    ¬ ("blogger_logo_round".data <:+: (safe_src src).data) := by
  obtain ⟨h1, h2⟩ := keep_src_spec hk
  have hn1 := not_infix_of_containsSub_false h1
  have hn2 := not_infix_of_containsSub_false h2
  unfold safe_src
  by_cases hp : "//".data.isPrefixOf src.data = true
  · simp only [hp, if_true]
    have hdata : ("http:" ++ src).data = "http:".data ++ src.data := rfl
    rw [hdata]
    constructor
    · intro hi
      exact hn1 (infix_drop_prepend '.' (by decide) (by decide) hi)
    · intro hi
      exact hn2 (infix_drop_prepend 'b' (by decide) (by decide) hi)
  · simp only [hp, if_false]
    exact ⟨hn1, hn2⟩

/-- C10: the media set of a scraped item never contains a source with
`".gif"` or `"blogger_logo_round"` in it; membership is exactly the
kept, fixed-up page sources (so a protocol-relative source is stored
with `"http:"` prepended); and the collection is duplicate-free. -/
theorem process_images_media_set :
    ∀ srcs : List String,
      (∀ s, s ∈ process_images srcs →
        ¬ (".gif".data <:+: s.data) ∧
        ¬ ("blogger_logo_round".data <:+: s.data)) ∧
      (∀ s, s ∈ process_images srcs ↔
        ∃ src, src ∈ srcs ∧ keep_src src = true ∧ s = safe_src src) ∧
      (∀ src, src ∈ srcs → keep_src src = true →
        "//".data.isPrefixOf src.data = true →
        ("http:" ++ src) ∈ process_images srcs) ∧
      (process_images srcs).Nodup := by
  intro srcs
  have hmem : ∀ s, s ∈ process_images srcs ↔
      ∃ src, src ∈ srcs ∧ keep_src src = true ∧ s = safe_src src := by
    intro s
    unfold process_images
    rw [process_images_go_mem]
    simp
  refine ⟨?_, hmem, ?_, ?_⟩
  · intro s hs
    obtain ⟨src, _, hk, rfl⟩ := (hmem s).mp hs
    exact safe_src_not_infix hk
  · intro src hsrc hk hp
    apply (hmem _).mpr
    refine ⟨src, hsrc, hk, ?_⟩
    unfold safe_src
    simp [hp]
  · unfold process_images
    exact process_images_go_nodup srcs [] List.nodup_nil

/-- The page sources used to witness C10: a protocol-relative source
occurring twice, a gif, a blogger logo, and a plain source. -/
def witnessSrcs : List String :=
  ["//img/a.png", "b.gif", "//img/a.png", "x-blogger_logo_round.png",
   "http://c.jpg"]

/-- Witness for C10 on a concrete source list. -/
theorem process_images_media_set_witness :
    ("http:" ++ "//img/a.png") ∈ process_images witnessSrcs ∧
    (process_images witnessSrcs).Nodup ∧
    ¬ (".gif".data <:+: ("http://img/a.png").data) :=
  ⟨(process_images_media_set witnessSrcs).2.2.1 "//img/a.png"
      (by decide) (by decide) (by decide),
   (process_images_media_set witnessSrcs).2.2.2,
   ((process_images_media_set witnessSrcs).1 "http://img/a.png"
      (by decide)).1⟩
